import Mathlib

/-!
# Balance — Domain Engine, shallow embedding

Shallow embedding of the Balance app's domain engine (Zustand store,
notification scheduler, analytics aggregations), translated from the
TypeScript sources:

* the store implementation (`generateDayPlan`, `updateDayItem`,
  `completeDayItem`, `importData`, getters) — `src/unnamed/part_001`,
  with types from `src/unnamed/part_003`;
* the undo handler — `src/src/components/SubcategoryTile.tsx` (`handleUndo`);
* the notification scheduler — `src/src/utils/notifications.ts`
  (web `setTimeout` branch; the timer table `notifications : Map<string, …>`
  is the state, timer handles are modelled by a counter);
* the analytics computations — `src/src/pages/Analytics.tsx`
  (`dailyData.completionRate`, `dailyData.avgRating`, `weeklyData`'s streak
  loop).

Modelling conventions:

* Calendar dates (`'yyyy-MM-dd'` strings) are modelled as `Nat` day indices
  (days since 1970-01-01).  ISO date strings compare lexicographically exactly
  as their day indices compare numerically, and `differenceInDays` is
  subtraction of indices.  `new Date(date).getDay()` becomes
  `dayOfWeek d = (d + 4) % 7` (1970-01-01 was a Thursday, `getDay() = 4`).
* `'HH:MM'` time-of-day strings are modelled as an `HM` pair of numbers, the
  result of the source's `start.split(':').map(Number)`.
* ids (`crypto.randomUUID()`) are modelled as `Nat` drawn from a `nextId`
  counter carried in the state; `Date.now()` / clock reads are explicit
  `now` parameters.  JavaScript numbers used for minute arithmetic are `Int`
  (the source can produce negative minute counts when `end < start`).
* JavaScript object maps (`dayPlans: { [date: string]: DayPlan }`) are
  association lists; `{...m, [k]: v}` replaces the binding in place when the
  key exists and appends it otherwise (`plansSet` below).
* fallible JSON parsing is modelled by `Option`: `JSON.parse` throwing
  corresponds to `none`, and a successful parse yields an untyped
  `JsonValue` tree; because `importData` spreads that tree over the store
  with no validation, the import path is modelled on an untyped store
  object (`StoreObj`), not on the typed `State`.
-/

/-- `'HH:MM'` time of day, as parsed by `split(':').map(Number)`. -/
structure HM where
  hour : Nat
  minute : Nat
deriving DecidableEq, Repr

/-- Minutes since midnight: `hour * 60 + minute`, as in `completeDayItem`. -/
def HM.toMinutes (t : HM) : Int := (t.hour : Int) * 60 + t.minute

/-- `Category.recurrence` union type (`src/unnamed/part_003`). -/
inductive Recurrence where
  | daily
  | weekly
  | special
deriving DecidableEq, Repr

/-- `DayItem.status` union type. -/
inductive Status where
  | pending
  | done
  | skipped
deriving DecidableEq, Repr

/-- `DayItem.rating` / completion rating union type (`win/good/bad/skip`). -/
inductive Rating where
  | win
  | good
  | bad
  | skip
deriving DecidableEq, Repr

/-- `Pillar` (`src/unnamed/part_003`). -/
structure Pillar where
  id : Nat
  name : String
  color : String
  order : Nat
deriving DecidableEq, Repr

/-- `Category` (`src/unnamed/part_003`). -/
structure Category where
  id : Nat
  pillarId : Nat
  name : String
  recurrence : Recurrence
  weeklyDay : Option Nat
  defaultStart : Option HM
  defaultEnd : Option HM
  isSpecial : Option Bool
deriving DecidableEq, Repr

/-- `Subcategory` (`src/unnamed/part_003`). -/
structure Subcategory where
  id : Nat
  categoryId : Nat
  name : String
  defaultStart : Option HM
  defaultEnd : Option HM
deriving DecidableEq, Repr

/-- `DayItem` (`src/unnamed/part_003`).  `end` is a Lean keyword, so the
field is `endTime`. -/
structure DayItem where
  id : Nat
  date : Nat
  pillarId : Nat
  categoryId : Nat
  subcategoryId : Option Nat
  title : String
  start : Option HM
  endTime : Option HM
  minutes : Option Int
  status : Status
  rating : Option Rating
  isSpecial : Option Bool
deriving DecidableEq, Repr

/-- `DayPlan` (`src/unnamed/part_003`). -/
structure DayPlan where
  date : Nat
  items : List DayItem
deriving DecidableEq, Repr

/-- `LogEntry` (`src/unnamed/part_003`): the store writes a *numeric* rating
(`win→5, good→4, bad→2, skip→0`, see `completeDayItem`). -/
structure LogEntry where
  id : Nat
  date : Nat
  pillarId : Nat
  categoryId : Nat
  subcategoryId : Option Nat
  rating : Int
  minutes : Int
  timestamp : Nat
deriving DecidableEq, Repr

/-- `Settings` (`src/unnamed/part_003`). -/
structure Settings where
  userName : String
  specialRollOver : Bool
  chartType : String
  notificationsEnabled : Bool
  hapticFeedback : Bool
  isFirstTime : Bool
deriving DecidableEq, Repr

/-- The store state (`AppState` data fields, `src/unnamed/part_001`), plus
the fresh-id counter standing in for `crypto.randomUUID()`. -/
structure State where
  pillars : List Pillar
  categories : List Category
  subcategories : List Subcategory
  dayPlans : List (Nat × DayPlan)
  logs : List LogEntry
  settings : Settings
  selectedDate : Nat
  lastSync : Nat
  nextId : Nat
deriving DecidableEq, Repr

/-- `state.dayPlans[date]` — lookup in the plans object. -/
def plansGet (m : List (Nat × DayPlan)) (d : Nat) : Option DayPlan :=
  match m with
  | [] => none
  | (k, v) :: rest => if k = d then some v else plansGet rest d

/-- `{...state.dayPlans, [date]: plan}` — JavaScript object spread update:
an existing key is overwritten in place, a new key is appended. -/
def plansSet (m : List (Nat × DayPlan)) (d : Nat) (p : DayPlan) :
    List (Nat × DayPlan) :=
  if (plansGet m d).isSome then
    m.map (fun e => if e.1 = d then (d, p) else e)
  else
    m ++ [(d, p)]

/-- `new Date(date).getDay()` for a day index (day 0 = Thursday 1970-01-01,
for which `getDay()` is 4). -/
def dayOfWeek (d : Nat) : Nat := (d + 4) % 7

/-- One generated item for a subcategory (`generateDayPlan`,
`src/unnamed/part_001` lines 116–129). -/
def mkSubItem (freshId date : Nat) (c : Category) (sub : Subcategory) :
    DayItem :=
  { id := freshId
    date := date
    pillarId := c.pillarId
    categoryId := c.id
    subcategoryId := some sub.id
    title := sub.name
    start := sub.defaultStart.orElse (fun _ => c.defaultStart)
    endTime := sub.defaultEnd.orElse (fun _ => c.defaultEnd)
    minutes := none
    status := .pending
    rating := none
    isSpecial := c.isSpecial }

/-- One generated item for a category with no subcategories
(`generateDayPlan`, `src/unnamed/part_001` lines 131–143). -/
def mkCatItem (freshId date : Nat) (c : Category) : DayItem :=
  { id := freshId
    date := date
    pillarId := c.pillarId
    categoryId := c.id
    subcategoryId := none
    title := c.name
    start := c.defaultStart
    endTime := c.defaultEnd
    minutes := none
    status := .pending
    rating := none
    isSpecial := c.isSpecial }

/-- The recurrence test inlined in `generateDayPlan`
(`src/unnamed/part_001` lines 109–110):
`category.recurrence === 'daily' || (category.recurrence === 'weekly' &&
new Date(date).getDay() === category.weeklyDay)`.
Note the source never tests `'special'` here. -/
def categoryIncluded (c : Category) (date : Nat) : Bool :=
  c.recurrence = .daily ∨
    (c.recurrence = .weekly ∧ c.weeklyDay = some (dayOfWeek date))

/-- Items pushed for one category (inner body of the `forEach` in
`generateDayPlan`, `src/unnamed/part_001` lines 108–145), threading the
fresh-id counter. -/
def genForCategory (s : State) (date : Nat) (acc : List DayItem × Nat)
    (c : Category) : List DayItem × Nat :=
  if categoryIncluded c date then
    let subs := s.subcategories.filter (fun sub => sub.categoryId = c.id)
    if subs.isEmpty then
      (acc.1 ++ [mkCatItem acc.2 date c], acc.2 + 1)
    else
      subs.foldl
        (fun acc sub => (acc.1 ++ [mkSubItem acc.2 date c sub], acc.2 + 1))
        acc
  else acc

/-- `generateDayPlan` (`src/unnamed/part_001` lines 102–156).  If a plan for
`date` exists the state is returned unchanged; otherwise items are generated
from the category templates and the new plan is stored under `date`. -/
def generateDayPlan (date : Nat) (s : State) : State :=
  if (plansGet s.dayPlans date).isSome then s
  else
    let gen := s.categories.foldl (genForCategory s date) ([], s.nextId)
    { s with
      dayPlans := plansSet s.dayPlans date { date := date, items := gen.1 }
      nextId := gen.2 }

/-- `updateDayItem` (`src/unnamed/part_001` lines 159–175).  The
`Partial<DayItem>` spread `{...item, ...updates}` is modelled by an explicit
item transformer `f`. -/
def updateDayItem (date itemId : Nat) (f : DayItem → DayItem) (s : State) :
    State :=
  match plansGet s.dayPlans date with
  | none => s
  | some dayPlan =>
    { s with
      dayPlans := plansSet s.dayPlans date
        { dayPlan with
          items := dayPlan.items.map
            (fun item => if item.id = itemId then f item else item) } }

/-- `handleUndo` (`src/src/components/SubcategoryTile.tsx` lines 70–82):
`updateDayItem(selectedDate, dayItem.id, { status: 'pending',
rating: undefined, minutes: undefined })`.  It only rewrites the `DayItem`;
it does not touch `state.logs`. -/
def handleUndo (date itemId : Nat) (s : State) : State :=
  updateDayItem date itemId
    (fun item => { item with status := .pending, rating := none, minutes := none })
    s

/-- Numeric log rating written by `completeDayItem`
(`src/unnamed/part_001` line 246):
`rating === 'win' ? 5 : rating === 'good' ? 4 : rating === 'bad' ? 2 : 0`. -/
def ratingScore : Rating → Int
  | .win => 5
  | .good => 4
  | .bad => 2
  | .skip => 0

/-- The resolved minutes of `completeDayItem` (`src/unnamed/part_001`
lines 221–226): `let finalMinutes = minutes; if (!finalMinutes && item.start
&& item.end) finalMinutes = (endH*60+endM) - (startH*60+startM)`.
`!finalMinutes` is true for `undefined` *and* for `0`. -/
def resolveMinutes (item : DayItem) (minutes : Option Int) : Option Int :=
  if (minutes = none ∨ minutes = some 0) ∧
      item.start.isSome ∧ item.endTime.isSome then
    some ((item.endTime.map HM.toMinutes).getD 0 -
      (item.start.map HM.toMinutes).getD 0)
  else minutes

/-- The per-item overwrite performed by `completeDayItem`
(`src/unnamed/part_001` lines 228–237): status becomes `skipped` for a
`skip` rating and `done` otherwise; rating and (resolved) minutes are
stored on the item. -/
def applyCompletion (rating : Rating) (finalMinutes : Option Int)
    (x : DayItem) : DayItem :=
  { x with
    status := if rating = .skip then .skipped else .done
    rating := some rating
    minutes := finalMinutes }

/-- The `LogEntry` built by `completeDayItem` (`src/unnamed/part_001` lines
240–249): numeric rating, `finalMinutes || 0`, fresh id, current
timestamp. -/
def mkLogEntry (freshId date : Nat) (item : DayItem) (rating : Rating)
    (finalMinutes : Option Int) (now : Nat) : LogEntry :=
  { id := freshId
    date := date
    pillarId := item.pillarId
    categoryId := item.categoryId
    subcategoryId := item.subcategoryId
    rating := ratingScore rating
    minutes := finalMinutes.getD 0
    timestamp := now }

/-- `completeDayItem` (`src/unnamed/part_001` lines 213–262): overwrites the
item's status/rating/minutes (status is `skipped` for a `skip` rating, `done`
otherwise) and appends one `LogEntry` with the numeric rating, resolved
minutes (`finalMinutes || 0`), a fresh id and the current timestamp.  It does
not inspect the item's current status. -/
def completeDayItem (date itemId : Nat) (rating : Rating)
    (minutes : Option Int) (now : Nat) (s : State) : State :=
  match plansGet s.dayPlans date with
  | none => s
  | some dayPlan =>
    match dayPlan.items.find? (fun i => i.id = itemId) with
    | none => s
    | some item =>
      let finalMinutes := resolveMinutes item minutes
      let updatedItems := dayPlan.items.map (fun i =>
        if i.id = itemId then applyCompletion rating finalMinutes i else i)
      let logEntry : LogEntry :=
        mkLogEntry s.nextId date item rating finalMinutes now
      { s with
        dayPlans := plansSet s.dayPlans date { dayPlan with items := updatedItems }
        logs := s.logs ++ [logEntry]
        nextId := s.nextId + 1 }

/-- A parsed JSON value — what a successful `JSON.parse` returns.  JSON
numbers are modelled as integers (the payloads at issue here hold ids,
counters and malformed scalars). -/
inductive JsonValue where
  | null
  | bool (b : Bool)
  | num (n : Int)
  | str (s : String)
  | arr (elems : List JsonValue)
  | obj (fields : List (String × JsonValue))
deriving Repr

/-- The store object as the import path sees it: a JavaScript object, an
association list of string keys to arbitrary untyped values.  The typed
`State` above is the shape the store has while only well-typed operations
run; `importData` performs no validation, so its result is representable
only at this level (a collection slot can end up holding a number). -/
abbrev StoreObj := List (String × JsonValue)

/-- Property read on a store object. -/
def objGet (m : StoreObj) (k : String) : Option JsonValue :=
  match m with
  | [] => none
  | (k', v) :: rest => if k' = k then some v else objGet rest k

/-- One property write of an object literal: an existing key is overwritten
in place, a new key is appended. -/
def objSet (m : StoreObj) (k : String) (v : JsonValue) : StoreObj :=
  if (objGet m k).isSome then m.map (fun e => if e.1 = k then (k, v) else e)
  else m ++ [(k, v)]

/-- `{...base, ...updates}`: later properties win. -/
def spreadObj (base updates : StoreObj) : StoreObj :=
  updates.foldl (fun acc kv => objSet acc kv.1 kv.2) base

/-- The own enumerable properties contributed by `...v` in an object
literal: an object spreads its fields, an array and a string spread their
index-keyed elements, every other value spreads nothing. -/
def jsSpreadable : JsonValue → StoreObj
  | .obj fields => fields
  | .arr elems => elems.enum.map (fun p => (toString p.1, p.2))
  | .str s => s.data.enum.map (fun p => (toString p.1, .str (String.mk [p.2])))
  | _ => []

/-- `importData` (`src/unnamed/part_001` lines 338–352).  `JSON.parse`'s
outcome is the `Option JsonValue` argument: `none` is a parse exception,
caught by the `catch` branch which returns `false` without calling `set`.
Any successfully parsed value — with no shape validation whatsoever — is
spread over the state, `{...state, ...data, selectedDate, isLoading,
lastSync}`, and `true` is returned.  (A JSON object parsed by `JSON.parse`
has distinct keys: duplicates in the source text collapse to the last.) -/
def importData (payload : Option JsonValue) (today : String) (now : Int)
    (s : StoreObj) : Bool × StoreObj :=
  match payload with
  | none => (false, s)
  | some data =>
    (true,
      spreadObj (spreadObj s (jsSpreadable data))
        [("selectedDate", .str today), ("isLoading", .bool false),
         ("lastSync", .num now)])

/-! ## Analytics aggregations (`src/src/pages/Analytics.tsx`) -/

/-- `getTasksInRange` (`Analytics.tsx` lines 63–74): every `DayItem` of every
`DayPlan` whose date lies in the inclusive `[a, b]` interval. -/
def getTasksInRange (s : State) (a b : Nat) : List DayItem :=
  (s.dayPlans.filter (fun e => a ≤ e.1 ∧ e.1 ≤ b)).flatMap (fun e => e.2.items)

/-- `getCompletedTasksInRange` (`Analytics.tsx` lines 77–82): the `LogEntry`s
whose date lies in the inclusive `[a, b]` interval. -/
def getCompletedTasksInRange (s : State) (a b : Nat) : List LogEntry :=
  s.logs.filter (fun log => a ≤ log.date ∧ log.date ≤ b)

/-- `dailyData.completionRate` (`Analytics.tsx` lines 118–120):
`totalToday > 0 ? (completedToday / totalToday) * 100 : 0`. -/
def completionRate (s : State) (a b : Nat) : ℚ :=
  let total := (getTasksInRange s a b).length
  let completed := (getCompletedTasksInRange s a b).length
  if 0 < total then ((completed : ℚ) / total) * 100 else 0

/-- `dailyData.avgRating` (`Analytics.tsx` lines 143–145): the mean of the
numeric `log.rating` values over the completed entries, `0` when there are
none. -/
def avgRating (s : State) (a b : Nat) : ℚ :=
  let completed := getCompletedTasksInRange s a b
  if 0 < completed.length then
    (((completed.map LogEntry.rating).sum : Int) : ℚ) / completed.length
  else 0

/-- `[...new Set(logs.map(log => log.date))].sort().reverse()`
(`Analytics.tsx` line 212): the distinct log dates, descending. -/
def completedDatesDesc (logs : List LogEntry) : List Nat :=
  ((logs.map LogEntry.date).dedup).insertionSort (fun x y => x ≥ y)

/-- The `for … break` walk of the streak loop (`Analytics.tsx` lines
220–230): starting from `cur`, each date whose distance from the previous
anchor is 0 or 1 extends the streak and becomes the new anchor; the first
larger gap stops the count. -/
def streakWalk : Nat → List Nat → Nat
  | _, [] => 0
  | cur, d :: ds =>
    if (cur : Int) - d = 0 ∨ (cur : Int) - d = 1 then 1 + streakWalk d ds
    else 0

/-- The streak computation of `weeklyData` (`Analytics.tsx` lines 210–231):
walk the distinct log dates descending, anchored at `today` when the most
recent log date is today and at the day after the most recent log date
otherwise. -/
def streak (logs : List LogEntry) (today : Nat) : Nat :=
  match completedDatesDesc logs with
  | [] => 0
  | first :: rest =>
    let cur := if first = today then today else first + 1
    streakWalk cur (first :: rest)

/-! ## Notification scheduler (`src/src/utils/notifications.ts`, web branch)

The module-level `notifications : Map<string, number>` table plus the
timeout-handle supply are the scheduler state; `hasPermission` (the awaited
`checkNotificationPermission()`) and the clock `now` (minutes since epoch)
are parameters. -/

/-- Scheduler state: the timer table (item id → timeout handle) and the
handle counter standing in for `window.setTimeout`'s returned ids. -/
structure Sched where
  table : List (Nat × Nat)
  nextHandle : Nat
deriving DecidableEq, Repr

/-- The armed item ids, in table order. -/
def Sched.armedIds (st : Sched) : List Nat := st.table.map Prod.fst

/-- `cancelNotification` (`notifications.ts` lines 166–187): drop the entry
for `taskId` if present, no-op otherwise. -/
def cancelNotification (taskId : Nat) (st : Sched) : Sched :=
  { st with table := st.table.filter (fun e => ¬ e.1 = taskId) }

/-- `cancelAllNotifications` (`notifications.ts` lines 192–213): clear every
timer and empty the table. -/
def cancelAllNotifications (st : Sched) : Sched :=
  { st with table := [] }

/-- The timestamp (in minutes) at which a task's reminder is due:
`taskTime = new Date(task.date); taskTime.setHours(hours, minutes, 0, 0)`
(`notifications.ts` lines 83–85).  `none` when the task has no `start`. -/
def taskDueTime (task : DayItem) : Option Int :=
  task.start.map (fun t => (task.date : Int) * 1440 + t.toMinutes)

/-- `scheduleNotification` (`notifications.ts` lines 60–161, web branch):
cancel any existing timer for the task, then bail out if the task has no
`start` or is not `pending`, if permission is missing, or if the due time has
already passed (`delay <= 0`); otherwise arm one timer for the task id.
(The source also bails out on an empty `task.date` string; a numeric day
index is always present.) -/
def scheduleNotification (now : Int) (hasPermission : Bool) (task : DayItem)
    (st : Sched) : Sched :=
  let st := cancelNotification task.id st
  match taskDueTime task with
  | none => st
  | some due =>
    if ¬ task.status = Status.pending then st
    else if ¬ hasPermission then st
    else if due - now ≤ 0 then st
    else
      { table := st.table ++ [(task.id, st.nextHandle)]
        nextHandle := st.nextHandle + 1 }

/-- One step of `rescheduleAll`'s loop (`notifications.ts` lines 296–307):
a pending task with a `start` whose due time is in the future is handed to
`scheduleNotification`; every other task is skipped. -/
def resyncStep (now : Int) (hasPermission : Bool) (st : Sched)
    (task : DayItem) : Sched :=
  match taskDueTime task with
  | none => st
  | some due =>
    if task.status = Status.pending ∧ now < due then
      scheduleNotification now hasPermission task st
    else st

/-- `rescheduleAll` (`notifications.ts` lines 275–310): cancel everything,
then — only when enabled and permitted — schedule every pending task whose
due time is still in the future. -/
def rescheduleAll (now : Int) (hasPermission : Bool) (tasks : List DayItem)
    (enabled : Bool) (st : Sched) : Sched :=
  let st := cancelAllNotifications st
  if ¬ enabled then st
  else if ¬ hasPermission then st
  else tasks.foldl (resyncStep now hasPermission) st

/-! ## Map lemmas -/

theorem plansGet_cons (k : Nat) (v : DayPlan) (rest : List (Nat × DayPlan))
    (d : Nat) :
    plansGet ((k, v) :: rest) d = if k = d then some v else plansGet rest d :=
  rfl

theorem plansGet_replace_of_isSome (m : List (Nat × DayPlan)) (d : Nat)
    (p : DayPlan) (h : (plansGet m d).isSome) :
    plansGet (m.map (fun e => if e.1 = d then (d, p) else e)) d = some p := by
  induction m with
  | nil => simp [plansGet] at h
  | cons kv rest ih =>
    obtain ⟨k, v⟩ := kv
    by_cases he : k = d
    · subst he
      simp [plansGet_cons]
    · simp only [List.map_cons]
      rw [if_neg he]
      rw [plansGet_cons, if_neg he]
      rw [plansGet_cons, if_neg he] at h
      exact ih h

theorem plansGet_append_of_none (m : List (Nat × DayPlan)) (d : Nat)
    (p : DayPlan) (h : plansGet m d = none) :
    plansGet (m ++ [(d, p)]) d = some p := by
  induction m with
  | nil => simp [plansGet]
  | cons kv rest ih =>
    obtain ⟨k, v⟩ := kv
    by_cases he : k = d
    · simp [plansGet_cons, he] at h
    · simp only [List.cons_append]
      rw [plansGet_cons, if_neg he]
      rw [plansGet_cons, if_neg he] at h
      exact ih h

theorem plansGet_set_self (m : List (Nat × DayPlan)) (d : Nat) (p : DayPlan) :
    plansGet (plansSet m d p) d = some p := by
  unfold plansSet
  by_cases h : (plansGet m d).isSome
  · simp only [h, if_true]
    exact plansGet_replace_of_isSome m d p h
  · simp only [h, if_false, Bool.false_eq_true]
    exact plansGet_append_of_none m d p (Option.not_isSome_iff_eq_none.mp h)

/-- C1 — Day-plan generation is idempotent: when a `DayPlan` for the date
already exists, `generateDayPlan` returns the state unchanged (every field),
and from any state at all, generating twice is the same as generating once,
so the second call yields the identical `DayPlan` (same item ids, same
content). -/
theorem generateDayPlan_idempotent (s : State) (d : Nat) :
    generateDayPlan d (generateDayPlan d s) = generateDayPlan d s ∧
      ((plansGet s.dayPlans d).isSome = true → generateDayPlan d s = s) := by
  constructor
  · by_cases h : (plansGet s.dayPlans d).isSome
    · simp [generateDayPlan, h]
    · have hgen : generateDayPlan d s =
          { s with
            dayPlans := plansSet s.dayPlans d
              { date := d
                items := (s.categories.foldl (genForCategory s d) ([], s.nextId)).1 }
            nextId := (s.categories.foldl (genForCategory s d) ([], s.nextId)).2 } := by
        rw [generateDayPlan]
        simp [h]
      rw [hgen, generateDayPlan]
      simp [plansGet_set_self]
  · intro h
    simp [generateDayPlan, h]

/-- Fixture: default settings object (`src/unnamed/part_001` lines 34–42). -/
def exSettings : Settings :=
  { userName := "User"
    specialRollOver := true
    chartType := "donut"
    notificationsEnabled := false
    hapticFeedback := true
    isFirstTime := true }

/-- Fixture: a state that already holds a (empty) `DayPlan` for day 19844
(2024-05-01). -/
def exPlanState : State :=
  { pillars := []
    categories := []
    subcategories := []
    dayPlans := [(19844, { date := 19844, items := [] })]
    logs := []
    settings := exSettings
    selectedDate := 19844
    lastSync := 0
    nextId := 0 }

/-- C1 witness: on a concrete state that already has a plan for 2024-05-01,
the hypothesis of `generateDayPlan_idempotent` holds and the call leaves the
state unchanged. -/
theorem generateDayPlan_idempotent_witness :
    (plansGet exPlanState.dayPlans 19844).isSome = true ∧
      generateDayPlan 19844 exPlanState = exPlanState :=
  ⟨by decide, (generateDayPlan_idempotent exPlanState 19844).2 (by decide)⟩

/-! ## C3 — recurrence handling of `generateDayPlan` -/

/-- Fixture: an empty store (no plans, no templates). -/
def exEmptyState : State :=
  { pillars := []
    categories := []
    subcategories := []
    dayPlans := []
    logs := []
    settings := exSettings
    selectedDate := 19844
    lastSync := 0
    nextId := 100 }

/-- Fixture: a `daily` category (shaped like the seed category `Exercise`). -/
def exDailyCat : Category :=
  { id := 1
    pillarId := 0
    name := "Exercise"
    recurrence := .daily
    weeklyDay := none
    defaultStart := some ⟨7, 0⟩
    defaultEnd := some ⟨8, 0⟩
    isSpecial := none }

/-- Fixture: a `special` category with `weeklyDay = 6` (shaped like the seed
category `Cycling`). -/
def exSpecialCat : Category :=
  { id := 2
    pillarId := 0
    name := "Cycling"
    recurrence := .special
    weeklyDay := some 6
    defaultStart := some ⟨9, 0⟩
    defaultEnd := some ⟨11, 0⟩
    isSpecial := some true }

/-- Fixture: store holding only the daily category. -/
def exDailyState : State := { exEmptyState with categories := [exDailyCat] }

/-- Fixture: store holding only the special category. -/
def exSpecialState : State :=
  { exEmptyState with categories := [exSpecialCat] }

/-- C3 counterexample — day 19847 is 2024-05-04, a Saturday
(`dayOfWeek = 6`), and `exSpecialCat` is a `special` category with
`weeklyDay = 6`; the claim says it must contribute items to the plan for
that date, but `generateDayPlan` (which only tests `daily` and `weekly`)
generates an empty plan. -/
theorem generateDayPlan_special_counterexample :
    exSpecialCat.recurrence = Recurrence.special ∧
      exSpecialCat.weeklyDay = some (dayOfWeek 19847) ∧
      plansGet (generateDayPlan 19847 exSpecialState).dayPlans 19847 =
        some { date := 19847, items := [] } := by
  refine ⟨rfl, by decide, ?_⟩
  decide

/-- C3 (amended) — for every category and date, in a store holding exactly
that category and no subcategories, the generated plan has items iff the
category is `daily`, or is `weekly` with `weeklyDay` equal to the date's
day-of-week; `special` (and any other recurrence) contributes nothing. -/
theorem generateDayPlan_recurrence (s : State) (c : Category) (d : Nat)
    (hplan : plansGet s.dayPlans d = none)
    (hcats : s.categories = [c]) (hsubs : s.subcategories = []) :
    (((plansGet (generateDayPlan d s).dayPlans d).getD
        { date := d, items := [] }).items ≠ [] ↔
      (c.recurrence = .daily ∨
        (c.recurrence = .weekly ∧ c.weeklyDay = some (dayOfWeek d)))) := by
  have hnone : (plansGet s.dayPlans d).isSome = false := by
    rw [hplan]; rfl
  have hgen : generateDayPlan d s =
      { s with
        dayPlans := plansSet s.dayPlans d
          { date := d
            items := (s.categories.foldl (genForCategory s d) ([], s.nextId)).1 }
        nextId := (s.categories.foldl (genForCategory s d) ([], s.nextId)).2 } := by
    rw [generateDayPlan]
    simp [hnone]
  rw [hgen]
  simp only [plansGet_set_self, Option.getD_some]
  rw [hcats]
  simp only [List.foldl_cons, List.foldl_nil]
  unfold genForCategory
  rw [hsubs]
  simp only [List.filter_nil, List.isEmpty_nil, if_true]
  by_cases hinc : categoryIncluded c d
  · have : (categoryIncluded c d) = true := hinc
    rw [this]
    simp only [if_true, List.nil_append]
    constructor
    · intro _
      have := of_decide_eq_true hinc
      simpa [categoryIncluded] using hinc
    · intro _
      simp
  · have : (categoryIncluded c d) = false := by
      simpa using hinc
    rw [this]
    simp only [Bool.false_eq_true, if_false]
    constructor
    · intro hne
      exact absurd rfl hne
    · intro hor
      exfalso
      apply hinc
      simpa [categoryIncluded] using hor

/-- C3 witness: for the concrete daily category, the hypotheses hold and the
plan generated for 2024-05-04 is non-empty, via the amended theorem. -/
theorem generateDayPlan_recurrence_witness :
    plansGet exDailyState.dayPlans 19847 = none ∧
      (((plansGet (generateDayPlan 19847 exDailyState).dayPlans 19847).getD
          { date := 19847, items := [] }).items ≠ []) :=
  ⟨by decide,
    (generateDayPlan_recurrence exDailyState exDailyCat 19847 (by decide) rfl
      rfl).mpr (Or.inl rfl)⟩

/-! ## C10 — `completeDayItem` ignores the item's current status -/

theorem find?_cons_eq (p : DayItem → Bool) (a : DayItem) (l : List DayItem) :
    (a :: l).find? p = if p a then some a else l.find? p := by
  by_cases h : p a
  · simp [List.find?_cons_of_pos, h]
  · simp [List.find?_cons_of_neg, h]

/-- Mapping an id-preserving per-item update over the items keeps `find?` by
id pointing at the (updated) found item. -/
theorem find?_update_by_id (items : List DayItem) (i : Nat)
    (g : DayItem → DayItem) (hg : ∀ x, (g x).id = x.id) (item : DayItem)
    (h : items.find? (fun x => x.id = i) = some item) :
    (items.map (fun x => if x.id = i then g x else x)).find?
      (fun x => x.id = i) = some (g item) := by
  induction items with
  | nil => simp at h
  | cons a l ih =>
    by_cases ha : a.id = i
    · rw [find?_cons_eq] at h
      simp only [ha] at h
      simp only [decide_eq_true_eq, if_true] at h
      rw [Option.some_inj] at h
      subst h
      simp only [List.map_cons, ha, if_true]
      rw [find?_cons_eq]
      simp [hg, ha]
    · rw [find?_cons_eq] at h
      simp only [ha, decide_eq_true_eq, if_false] at h
      simp only [List.map_cons, ha, if_false]
      rw [find?_cons_eq]
      simp only [ha, decide_eq_true_eq, if_false]
      exact ih (by simpa using h)

/-- Unfolded form of `completeDayItem` when the plan and the item are found:
the matching items are overwritten and one log entry is appended. -/
theorem completeDayItem_eq (d i : Nat) (r : Rating) (m : Option Int) (t : Nat)
    (s : State) (dayPlan : DayPlan) (item : DayItem)
    (hplan : plansGet s.dayPlans d = some dayPlan)
    (hitem : dayPlan.items.find? (fun x => x.id = i) = some item) :
    completeDayItem d i r m t s =
      { s with
        dayPlans := plansSet s.dayPlans d
          { dayPlan with
            items := dayPlan.items.map (fun x =>
              if x.id = i then applyCompletion r (resolveMinutes item m) x
              else x) }
        logs := s.logs ++ [mkLogEntry s.nextId d item r (resolveMinutes item m) t]
        nextId := s.nextId + 1 } := by
  unfold completeDayItem
  split
  · rename_i heq
    rw [hplan] at heq
    exact Option.noConfusion heq
  · rename_i dp heq
    rw [hplan, Option.some_inj] at heq
    subst heq
    split
    · rename_i heq2
      rw [hitem] at heq2
      exact Option.noConfusion heq2
    · rename_i it heq2
      rw [hitem, Option.some_inj] at heq2
      subst heq2
      rfl

/-- C10 — `completeDayItem` never checks the item's current status: whatever
the found item's status (pending, done or skipped), each call appends exactly
one new `LogEntry` (two calls append two entries with distinct fresh ids) and
overwrites the item's status/rating/minutes with the values of the latest
call. -/
theorem completeDayItem_ignores_status (s : State) (d i : Nat)
    (r r' : Rating) (m m' : Option Int) (t t' : Nat)
    (dayPlan : DayPlan) (item : DayItem)
    (hplan : plansGet s.dayPlans d = some dayPlan)
    (hitem : dayPlan.items.find? (fun x => x.id = i) = some item) :
    (completeDayItem d i r' m' t' (completeDayItem d i r m t s)).logs.length
        = s.logs.length + 2 ∧
      (∃ e1 e2 : LogEntry,
        (completeDayItem d i r' m' t' (completeDayItem d i r m t s)).logs
            = s.logs ++ [e1, e2] ∧ e1.id ≠ e2.id) ∧
      (∀ x ∈ ((plansGet
            (completeDayItem d i r' m' t' (completeDayItem d i r m t s)).dayPlans
            d).getD { date := d, items := [] }).items,
        x.id = i →
          x.status = (if r' = .skip then .skipped else .done) ∧
            x.rating = some r') := by
  have hs1 := completeDayItem_eq d i r m t s dayPlan item hplan hitem
  have hfind1 := find?_update_by_id dayPlan.items i
    (applyCompletion r (resolveMinutes item m)) (fun x => rfl) item hitem
  have hplan1 : plansGet (completeDayItem d i r m t s).dayPlans d =
      some { dayPlan with
        items := dayPlan.items.map (fun x =>
          if x.id = i then applyCompletion r (resolveMinutes item m) x
          else x) } := by
    rw [hs1]
    exact plansGet_set_self _ _ _
  have hs2 := completeDayItem_eq d i r' m' t' (completeDayItem d i r m t s)
    _ _ hplan1 hfind1
  refine ⟨?_, ?_, ?_⟩
  · rw [hs2]
    simp only [List.length_append]
    rw [hs1]
    simp
  · refine ⟨mkLogEntry s.nextId d item r (resolveMinutes item m) t,
      mkLogEntry (s.nextId + 1) d (applyCompletion r (resolveMinutes item m) item)
        r' (resolveMinutes (applyCompletion r (resolveMinutes item m) item) m') t',
      ?_, ?_⟩
    · rw [hs2, hs1]
      simp
    · simp [mkLogEntry]
  · intro x hx hxid
    rw [hs2] at hx
    simp only [plansGet_set_self, Option.getD_some] at hx
    rcases List.mem_map.mp hx with ⟨y, _, hy⟩
    by_cases hyid : y.id = i
    · rw [if_pos hyid] at hy
      rw [← hy]
      exact ⟨rfl, rfl⟩
    · rw [if_neg hyid] at hy
      rw [← hy] at hxid
      exact absurd hxid hyid

/-- Fixture: a `DayItem` that is already completed (`done`, rated). -/
def exItemDone : DayItem :=
  { id := 7
    date := 19844
    pillarId := 0
    categoryId := 1
    subcategoryId := none
    title := "Exercise"
    start := some ⟨7, 0⟩
    endTime := some ⟨8, 0⟩
    minutes := some 60
    status := .done
    rating := some .good
    isSpecial := none }

/-- Fixture: a store whose plan for day 19844 holds the completed item. -/
def exC10State : State :=
  { exEmptyState with
    dayPlans := [(19844, { date := 19844, items := [exItemDone] })]
    nextId := 50 }

/-- C10 witness: completing the already-`done` item twice on a concrete
store appends two log entries, via the theorem. -/
theorem completeDayItem_ignores_status_witness :
    plansGet exC10State.dayPlans 19844 =
        some { date := 19844, items := [exItemDone] } ∧
      (completeDayItem 19844 7 .win (some 20) 1
          (completeDayItem 19844 7 .bad (some 10) 0 exC10State)).logs.length
        = exC10State.logs.length + 2 :=
  ⟨by decide,
    (completeDayItem_ignores_status exC10State 19844 7 .bad .win (some 10)
      (some 20) 0 1 { date := 19844, items := [exItemDone] } exItemDone
      (by decide) (by decide)).1⟩

/-! ## C2 — complete-then-undo round trip -/

theorem map_self_of_fix {α : Type} (l : List α) (f : α → α)
    (h : ∀ x ∈ l, f x = x) : l.map f = l := by
  induction l with
  | nil => rfl
  | cons a l ih =>
    rw [List.map_cons, h a (List.mem_cons_self a l),
      ih (fun x hx => h x (List.mem_cons_of_mem a hx))]

/-- Unfolded form of `updateDayItem` when the plan exists. -/
theorem updateDayItem_eq (d i : Nat) (f : DayItem → DayItem) (s : State)
    (dayPlan : DayPlan) (hplan : plansGet s.dayPlans d = some dayPlan) :
    updateDayItem d i f s =
      { s with
        dayPlans := plansSet s.dayPlans d
          { dayPlan with
            items := dayPlan.items.map
              (fun x => if x.id = i then f x else x) } } := by
  unfold updateDayItem
  split
  · rename_i heq
    rw [hplan] at heq
    exact Option.noConfusion heq
  · rename_i dp heq
    rw [hplan, Option.some_inj] at heq
    subst heq
    rfl

/-- Replacing the value at a key and then replacing it back with the original
value is the identity, on an association list with distinct keys. -/
theorem replace_replace_restore (d : Nat) (p v : DayPlan) :
    ∀ (m : List (Nat × DayPlan)), (m.map Prod.fst).Nodup →
      plansGet m d = some v →
      ((m.map (fun e => if e.1 = d then (d, p) else e)).map
        (fun e => if e.1 = d then (d, v) else e)) = m := by
  intro m
  induction m with
  | nil => intro _ h; exact Option.noConfusion h
  | cons kv rest ih =>
    intro hnd h
    obtain ⟨k, w⟩ := kv
    simp only [List.map_cons, List.nodup_cons] at hnd
    by_cases hk : k = d
    · subst hk
      rw [plansGet_cons, if_pos rfl, Option.some_inj] at h
      subst h
      simp only [List.map_cons, if_pos rfl]
      have hrest : ∀ e ∈ rest, ¬ e.1 = k := by
        intro e he hek
        exact hnd.1 (hek ▸ List.mem_map_of_mem Prod.fst he)
      rw [map_self_of_fix rest _ (fun e he => if_neg (hrest e he)),
        map_self_of_fix rest _ (fun e he => if_neg (hrest e he))]
      simp
    · rw [plansGet_cons, if_neg hk] at h
      simp only [List.map_cons, if_neg hk]
      rw [ih hnd.2 h]

/-- Writing a plan and then writing back the original plan restores the
original plans object (distinct keys). -/
theorem plansSet_set_restore (m : List (Nat × DayPlan)) (d : Nat)
    (p v : DayPlan) (hnd : (m.map Prod.fst).Nodup)
    (h : plansGet m d = some v) :
    plansSet (plansSet m d p) d v = m := by
  have hsome : (plansGet m d).isSome := by rw [h]; rfl
  unfold plansSet
  rw [if_pos hsome]
  rw [if_pos (by rw [plansGet_replace_of_isSome m d p hsome]; rfl)]
  exact replace_replace_restore d p v m hnd h

/-- Undoing the completion overwrite restores an item that was pending and
unrated with no recorded minutes. -/
theorem undo_applyCompletion (r : Rating) (fm : Option Int) (x : DayItem)
    (hstat : x.status = .pending) (hrat : x.rating = none)
    (hmin : x.minutes = none) :
    ({ applyCompletion r fm x with
        status := .pending, rating := none, minutes := none } : DayItem) = x := by
  obtain ⟨xid, xdate, xp, xc, xsub, xtitle, xst, xet, xm, xstatus, xr, xsp⟩ := x
  simp only at hstat hrat hmin
  subst hstat
  subst hrat
  subst hmin
  rfl

/-- Fixture: a pending, unrated `DayItem`. -/
def exItemPending : DayItem :=
  { id := 7
    date := 19844
    pillarId := 0
    categoryId := 1
    subcategoryId := none
    title := "Exercise"
    start := some ⟨7, 0⟩
    endTime := some ⟨8, 0⟩
    minutes := none
    status := .pending
    rating := none
    isSpecial := none }

/-- Fixture: a store whose plan for day 19844 holds the pending item and
whose log is empty. -/
def exC2State : State :=
  { exEmptyState with
    dayPlans := [(19844, { date := 19844, items := [exItemPending] })]
    nextId := 50 }

/-- C2 counterexample — completing the pending item (`good`, 30 minutes) and
then undoing it does restore the `DayItem`, but the `LogEntry` created by the
completion is **not** removed: the log still has one entry where the claim
requires the logs collection to be as it was before (empty). -/
theorem complete_undo_keeps_log_counterexample :
    plansGet (handleUndo 19844 7
        (completeDayItem 19844 7 .good (some 30) 0 exC2State)).dayPlans 19844
      = some { date := 19844, items := [exItemPending] } ∧
      exC2State.logs = [] ∧
      (handleUndo 19844 7
        (completeDayItem 19844 7 .good (some 30) 0 exC2State)).logs.length = 1 := by
  refine ⟨?_, rfl, ?_⟩ <;> decide

/-- C2 (amended) — for a pending, unrated item with no recorded minutes,
completing it and then undoing restores the item (and the whole `dayPlans`
collection) exactly, but the `LogEntry` appended by the completion stays in
the logs: the logs grow by exactly that one entry instead of returning to
their pre-completion value. -/
theorem complete_undo_roundtrip (s : State) (d i : Nat) (r : Rating)
    (m : Option Int) (t : Nat) (dayPlan : DayPlan) (item : DayItem)
    (hnd : (s.dayPlans.map Prod.fst).Nodup)
    (hplan : plansGet s.dayPlans d = some dayPlan)
    (hitem : dayPlan.items.find? (fun x => x.id = i) = some item)
    (hpend : ∀ x ∈ dayPlan.items, x.id = i →
      x.status = .pending ∧ x.rating = none ∧ x.minutes = none) :
    (handleUndo d i (completeDayItem d i r m t s)).dayPlans = s.dayPlans ∧
      (handleUndo d i (completeDayItem d i r m t s)).logs =
        s.logs ++ [mkLogEntry s.nextId d item r (resolveMinutes item m) t] := by
  have hs1 := completeDayItem_eq d i r m t s dayPlan item hplan hitem
  have hplan1 : plansGet (completeDayItem d i r m t s).dayPlans d =
      some { dayPlan with
        items := dayPlan.items.map (fun x =>
          if x.id = i then applyCompletion r (resolveMinutes item m) x
          else x) } := by
    rw [hs1]
    exact plansGet_set_self _ _ _
  have hs2 := updateDayItem_eq d i
    (fun item => { item with status := .pending, rating := none, minutes := none })
    (completeDayItem d i r m t s) _ hplan1
  have hitems : ((dayPlan.items.map (fun x =>
      if x.id = i then applyCompletion r (resolveMinutes item m) x else x)).map
        (fun x => if x.id = i then
          ({ x with status := .pending, rating := none, minutes := none } : DayItem)
          else x)) = dayPlan.items := by
    rw [List.map_map]
    apply map_self_of_fix
    intro x hx
    by_cases hxid : x.id = i
    · obtain ⟨hstat, hrat, hmin⟩ := hpend x hx hxid
      simp only [Function.comp_apply, hxid, if_pos]
      have hid : (applyCompletion r (resolveMinutes item m) x).id = i := hxid
      rw [if_pos hid]
      exact undo_applyCompletion r (resolveMinutes item m) x hstat hrat hmin
    · simp only [Function.comp_apply, hxid, if_neg, ite_false]
  constructor
  · show (updateDayItem d i _ (completeDayItem d i r m t s)).dayPlans = s.dayPlans
    rw [hs2]
    simp only []
    rw [hitems, hs1]
    simp only []
    exact plansSet_set_restore s.dayPlans d _ dayPlan hnd hplan
  · show (updateDayItem d i _ (completeDayItem d i r m t s)).logs =
      s.logs ++ [mkLogEntry s.nextId d item r (resolveMinutes item m) t]
    rw [hs2, hs1]

/-- C2 witness: the amended round trip applied to the concrete pending item —
the plans collection is restored and the log keeps exactly the one entry. -/
theorem complete_undo_roundtrip_witness :
    (handleUndo 19844 7
        (completeDayItem 19844 7 .good (some 30) 0 exC2State)).dayPlans
      = exC2State.dayPlans ∧
      (handleUndo 19844 7
        (completeDayItem 19844 7 .good (some 30) 0 exC2State)).logs =
        exC2State.logs ++
          [mkLogEntry exC2State.nextId 19844 exItemPending .good
            (resolveMinutes exItemPending (some 30)) 0] :=
  complete_undo_roundtrip exC2State 19844 7 .good (some 30) 0
    { date := 19844, items := [exItemPending] } exItemPending
    (by decide) (by decide) (by decide) (by decide)

/-! ## C9 — import atomicity -/

theorem objGet_cons (k' : String) (v : JsonValue) (rest : StoreObj)
    (k : String) :
    objGet ((k', v) :: rest) k = if k' = k then some v else objGet rest k :=
  rfl

theorem objGet_replace_of_isSome (m : StoreObj) (k : String) (v : JsonValue)
    (h : (objGet m k).isSome) :
    objGet (m.map (fun e => if e.1 = k then (k, v) else e)) k = some v := by
  induction m with
  | nil => simp [objGet] at h
  | cons kv rest ih =>
    obtain ⟨k', w⟩ := kv
    by_cases he : k' = k
    · subst he
      simp [objGet_cons]
    · simp only [List.map_cons]
      rw [if_neg he]
      rw [objGet_cons, if_neg he]
      rw [objGet_cons, if_neg he] at h
      exact ih h

theorem objGet_append_of_none (m : StoreObj) (k : String) (v : JsonValue)
    (h : objGet m k = none) :
    objGet (m ++ [(k, v)]) k = some v := by
  induction m with
  | nil => simp [objGet]
  | cons kv rest ih =>
    obtain ⟨k', w⟩ := kv
    by_cases he : k' = k
    · simp [objGet_cons, he] at h
    · simp only [List.cons_append]
      rw [objGet_cons, if_neg he]
      rw [objGet_cons, if_neg he] at h
      exact ih h

theorem objGet_objSet_self (m : StoreObj) (k : String) (v : JsonValue) :
    objGet (objSet m k v) k = some v := by
  unfold objSet
  by_cases h : (objGet m k).isSome
  · rw [if_pos h]
    exact objGet_replace_of_isSome m k v h
  · rw [if_neg h]
    exact objGet_append_of_none m k v (Option.not_isSome_iff_eq_none.mp h)

theorem objGet_replace_ne (k' k : String) (v : JsonValue) (hne : ¬ k' = k) :
    ∀ m : StoreObj,
      objGet (m.map (fun e => if e.1 = k' then (k', v) else e)) k =
        objGet m k := by
  intro m
  induction m with
  | nil => rfl
  | cons kv rest ih =>
    obtain ⟨a, b⟩ := kv
    by_cases ha : a = k'
    · subst ha
      simp only [List.map_cons]
      simp [objGet_cons, hne, ih]
    · simp only [List.map_cons]
      rw [if_neg ha]
      rw [objGet_cons, objGet_cons]
      by_cases hak : a = k
      · rw [if_pos hak, if_pos hak]
      · rw [if_neg hak, if_neg hak]
        exact ih

theorem objGet_append_ne (k' k : String) (v : JsonValue) (hne : ¬ k' = k) :
    ∀ m : StoreObj, objGet (m ++ [(k', v)]) k = objGet m k := by
  intro m
  induction m with
  | nil =>
    show objGet [(k', v)] k = none
    rw [objGet_cons, if_neg hne]
    rfl
  | cons kv rest ih =>
    obtain ⟨a, b⟩ := kv
    simp only [List.cons_append]
    rw [objGet_cons, objGet_cons]
    by_cases hak : a = k
    · rw [if_pos hak, if_pos hak]
    · rw [if_neg hak, if_neg hak]
      exact ih

theorem objGet_objSet_ne (m : StoreObj) (k' k : String) (v : JsonValue)
    (hne : ¬ k' = k) :
    objGet (objSet m k' v) k = objGet m k := by
  unfold objSet
  by_cases h : (objGet m k').isSome
  · rw [if_pos h]
    exact objGet_replace_ne k' k v hne m
  · rw [if_neg h]
    exact objGet_append_ne k' k v hne m

theorem objGet_spread_not_mem (k : String) :
    ∀ (updates : StoreObj) (base : StoreObj),
      (∀ e ∈ updates, ¬ e.1 = k) →
      objGet (spreadObj base updates) k = objGet base k := by
  intro updates
  induction updates with
  | nil => intro base _; rfl
  | cons u rest ih =>
    intro base hne
    show objGet (spreadObj (objSet base u.1 u.2) rest) k = objGet base k
    rw [ih (objSet base u.1 u.2) (fun e he => hne e (List.mem_cons_of_mem u he))]
    exact objGet_objSet_ne base u.1 k u.2 (hne u (List.mem_cons_self u rest))

theorem objGet_spread_of_get (k : String) (val : JsonValue) :
    ∀ (updates : StoreObj) (base : StoreObj),
      (updates.map Prod.fst).Nodup →
      objGet updates k = some val →
      objGet (spreadObj base updates) k = some val := by
  intro updates
  induction updates with
  | nil => intro base _ h; exact Option.noConfusion h
  | cons kv rest ih =>
    intro base hnd hget
    obtain ⟨k', v⟩ := kv
    simp only [List.map_cons, List.nodup_cons] at hnd
    by_cases hk : k' = k
    · subst hk
      rw [objGet_cons, if_pos rfl, Option.some_inj] at hget
      subst hget
      show objGet (spreadObj (objSet base k' v) rest) k' = some v
      rw [objGet_spread_not_mem k' rest (objSet base k' v) (fun e he hek => hnd.1 (hek ▸ List.mem_map_of_mem Prod.fst he))]
      exact objGet_objSet_self base k' v
    · rw [objGet_cons, if_neg hk] at hget
      show objGet (spreadObj (objSet base k' v) rest) k = some val
      exact ih (objSet base k' v) hnd.2 hget

/-- C9 (amended) — `importData` returns `false` and leaves the store
untouched exactly when `JSON.parse` throws; **every** syntactically valid
input is accepted: it returns `true`, and whatever value — well-typed or
not — a parsed object payload binds to a key (other than the three keys the
function itself then sets) becomes the store's value at that key, with no
validation. -/
theorem importData_no_validation (s : StoreObj) (today : String)
    (now : Int) :
    importData none today now s = (false, s) ∧
      (∀ v : JsonValue, (importData (some v) today now s).1 = true) ∧
      (∀ (fields : List (String × JsonValue)) (k : String) (val : JsonValue),
        (fields.map Prod.fst).Nodup →
        ¬ k = "selectedDate" → ¬ k = "isLoading" → ¬ k = "lastSync" →
        objGet fields k = some val →
        objGet (importData (some (.obj fields)) today now s).2 k
          = some val) := by
  refine ⟨rfl, fun v => rfl, ?_⟩
  intro fields k val hnd h1 h2 h3 hget
  show objGet (spreadObj (spreadObj s (jsSpreadable (.obj fields)))
      [("selectedDate", .str today), ("isLoading", .bool false),
       ("lastSync", .num now)]) k = some val
  rw [objGet_spread_not_mem k _ _ ?hfix]
  case hfix =>
    intro e he
    rcases List.mem_cons.mp he with h | h
    · subst h
      intro hek
      exact h1 hek.symm
    · rcases List.mem_cons.mp h with h' | h'
      · subst h'
        intro hek
        exact h2 hek.symm
      · rw [List.mem_singleton] at h'
        subst h'
        intro hek
        exact h3 hek.symm
  exact objGet_spread_of_get k val fields s hnd hget

/-- Fixture: a raw store object shaped like the persisted state, with a
proper pillars array. -/
def exRawStore : StoreObj :=
  [("pillars", .arr [.obj [("id", .str "health"), ("name", .str "Health"),
      ("color", .str "#00bf63"), ("order", .num 0)]]),
   ("categories", .arr []),
   ("subcategories", .arr []),
   ("dayPlans", .obj []),
   ("logs", .arr []),
   ("settings", .obj [("userName", .str "User")]),
   ("selectedDate", .str "2024-05-01"),
   ("isLoading", .bool false),
   ("lastSync", .num 0)]

/-- Fixture: a syntactically valid but structurally malformed payload — the
parse of the text binding the pillars key to the number 5. -/
def exMalformedPayload : JsonValue := .obj [("pillars", .num 5)]

/-- C9 counterexample — a parseable but malformed payload (pillars bound to
the number 5) is **accepted**: `importData` returns `true` and replaces the
pillars collection with the number 5, mutating the store, where the claim
requires `false` with the state untouched. -/
theorem importData_accepts_malformed_counterexample :
    (importData (some exMalformedPayload) "2024-05-04" 1 exRawStore).1
        = true ∧
      objGet exRawStore "pillars" =
        some (.arr [.obj [("id", .str "health"), ("name", .str "Health"),
          ("color", .str "#00bf63"), ("order", .num 0)]]) ∧
      objGet (importData (some exMalformedPayload) "2024-05-04" 1
          exRawStore).2 "pillars" = some (.num 5) ∧
      ¬ (importData (some exMalformedPayload) "2024-05-04" 1 exRawStore).2
          = exRawStore := by
  refine ⟨rfl, rfl, rfl, ?_⟩
  intro heq
  have h5 : objGet (importData (some exMalformedPayload) "2024-05-04" 1
      exRawStore).2 "pillars" = some (.num 5) := rfl
  rw [heq] at h5
  have harr : objGet exRawStore "pillars" =
      some (.arr [.obj [("id", .str "health"), ("name", .str "Health"),
        ("color", .str "#00bf63"), ("order", .num 0)]]) := rfl
  rw [harr] at h5
  injection h5 with h6
  exact JsonValue.noConfusion h6

/-- C9 witness: the amended theorem applied at the concrete malformed
payload — parse failure is atomic, and the accepted payload's number lands
in the pillars slot. -/
theorem importData_no_validation_witness :
    importData none "2024-05-04" 1 exRawStore = (false, exRawStore) ∧
      objGet (importData (some exMalformedPayload) "2024-05-04" 1
          exRawStore).2 "pillars" = some (.num 5) :=
  ⟨(importData_no_validation exRawStore "2024-05-04" 1).1,
    (importData_no_validation exRawStore "2024-05-04" 1).2.2
      [("pillars", .num 5)] "pillars" (.num 5)
      (by simp) (by decide) (by decide) (by decide) rfl⟩

/-! ## C4 — completion rate -/

/-- Completion rate in the words of the (amended) spec sentence: one hundred
times the number of `LogEntry`s in range divided by the number of `DayItem`s
scheduled in range, and 0 when no `DayItem` is scheduled. -/
def completionRate_spec (s : State) (a b : Nat) : ℚ :=
  if (getTasksInRange s a b).length = 0 then 0
  else 100 * ((getCompletedTasksInRange s a b).length : ℚ) /
    ((getTasksInRange s a b).length : ℚ)

/-- Fixture: a log entry for day 19844. -/
def exLog (n : Nat) : LogEntry :=
  { id := n
    date := 19844
    pillarId := 0
    categoryId := 1
    subcategoryId := none
    rating := 4
    minutes := 30
    timestamp := n }

/-- Fixture: a plan with 4 items on day 19844, 3 of which have log
entries. -/
def exC4State : State :=
  { exEmptyState with
    dayPlans := [(19844, { date := 19844, items :=
      [{ exItemPending with id := 1 }, { exItemPending with id := 2 },
       { exItemPending with id := 3 }, { exItemPending with id := 4 }] })]
    logs := [exLog 1, exLog 2, exLog 3] }

/-- The concrete 4-items/3-entries rate evaluates to the percentage 75. -/
theorem completionRate_exC4 : completionRate exC4State 19844 19844 = 75 := by
  have h1 : (getTasksInRange exC4State 19844 19844).length = 4 := by decide
  have h2 : (getCompletedTasksInRange exC4State 19844 19844).length = 3 := by
    decide
  show (if 0 < (getTasksInRange exC4State 19844 19844).length then
      ((getCompletedTasksInRange exC4State 19844 19844).length : ℚ) /
        ((getTasksInRange exC4State 19844 19844).length : ℚ) * 100
    else 0) = 75
  rw [h1, h2]
  norm_num

/-- C4 counterexample — with 4 scheduled items and 3 log entries in range the
code's completion rate is the percentage 75, not the ratio 0.75 that the
claim states. -/
theorem completionRate_percent_counterexample :
    (getTasksInRange exC4State 19844 19844).length = 4 ∧
      (getCompletedTasksInRange exC4State 19844 19844).length = 3 ∧
      completionRate exC4State 19844 19844 = 75 ∧
      ¬ completionRate exC4State 19844 19844 = 3 / 4 := by
  refine ⟨by decide, by decide, completionRate_exC4, ?_⟩
  rw [completionRate_exC4]
  norm_num

/-- C4 (amended) — for every range the aggregator's completion rate equals
100 × |LogEntries in range| / |DayItems scheduled in range| (a percentage,
0 when no items are scheduled), and the 4-items/3-entries example yields
75. -/
theorem completionRate_eq_spec (s : State) (a b : Nat) :
    completionRate s a b = completionRate_spec s a b ∧
      completionRate exC4State 19844 19844 = 75 := by
  constructor
  · unfold completionRate completionRate_spec
    by_cases h : (getTasksInRange s a b).length = 0
    · simp [h]
    · rw [if_pos (Nat.pos_of_ne_zero h), if_neg h]
      ring
  · exact completionRate_exC4

/-! ## C5 — quality score -/

/-- Quality score in the words of the (amended) spec sentence: the
arithmetic mean of the stored numeric ratings of the `LogEntry`s in range,
0 when there are none. -/
def quality_spec (s : State) (a b : Nat) : ℚ :=
  if (getCompletedTasksInRange s a b).length = 0 then 0
  else (((getCompletedTasksInRange s a b).map LogEntry.rating).sum : ℚ) /
    ((getCompletedTasksInRange s a b).length : ℚ)

/-- Fixture: three pending items on day 19844. -/
def exC5Base : State :=
  { exEmptyState with
    dayPlans := [(19844, { date := 19844, items :=
      [{ exItemPending with id := 1 }, { exItemPending with id := 2 },
       { exItemPending with id := 3 }] })] }

/-- Fixture: the three items completed with ratings `win`, `good`, `bad`
through `completeDayItem`. -/
def exC5State : State :=
  completeDayItem 19844 3 .bad (some 10) 2
    (completeDayItem 19844 2 .good (some 10) 1
      (completeDayItem 19844 1 .win (some 10) 0 exC5Base))

/-- The `win, good, bad` example evaluates to the mean 11/3. -/
theorem avgRating_exC5 : avgRating exC5State 19844 19844 = 11 / 3 := by
  have h1 : ((getCompletedTasksInRange exC5State 19844 19844).map
      LogEntry.rating).sum = 11 := by decide
  have h2 : (getCompletedTasksInRange exC5State 19844 19844).length = 3 := by
    decide
  show (if 0 < (getCompletedTasksInRange exC5State 19844 19844).length then
      (((getCompletedTasksInRange exC5State 19844 19844).map
          LogEntry.rating).sum : ℚ) /
        ((getCompletedTasksInRange exC5State 19844 19844).length : ℚ)
    else 0) = 11 / 3
  rw [h1, h2]
  norm_num

/-- C5 counterexample — completing three items rated `win`, `good`, `bad`
stores the numeric ratings 5, 4, 2, and the aggregator's quality score is
their mean 11/3 ≈ 3.667, not the weight mean (1.0+0.7+0.3)/3 = 2/3 ≈ 0.6667
that the claim states. -/
theorem quality_weights_counterexample :
    (getCompletedTasksInRange exC5State 19844 19844).map LogEntry.rating
        = [5, 4, 2] ∧
      avgRating exC5State 19844 19844 = 11 / 3 ∧
      ¬ avgRating exC5State 19844 19844 = 2 / 3 := by
  refine ⟨by decide, avgRating_exC5, ?_⟩
  rw [avgRating_exC5]
  norm_num

/-- C5 (amended) — for every range the aggregator's quality score equals the
arithmetic mean of the stored numeric ratings (`win→5, good→4, bad→2,
skip→0`) of the entries in range (0 when there are none); the
`win, good, bad` example yields (5+4+2)/3 = 11/3. -/
theorem avgRating_eq_spec (s : State) (a b : Nat) :
    avgRating s a b = quality_spec s a b ∧
      avgRating exC5State 19844 19844 = 11 / 3 := by
  constructor
  · unfold avgRating quality_spec
    by_cases h : (getCompletedTasksInRange s a b).length = 0
    · simp [h]
    · rw [if_pos (Nat.pos_of_ne_zero h), if_neg h]
  · exact avgRating_exC5

/-! ## C7 / C8 — notification scheduler -/

theorem map_fst_filter_key (i : Nat) (l : List (Nat × Nat)) :
    (l.filter (fun e => ¬ e.1 = i)).map Prod.fst =
      (l.map Prod.fst).filter (fun k => ¬ k = i) := by
  induction l with
  | nil => rfl
  | cons e rest ih =>
    by_cases he : e.1 = i
    · simp only [List.filter_cons, List.map_cons]
      simp [he]
      simpa using ih
    · simp only [List.filter_cons, List.map_cons]
      simp [he]
      simpa using ih

theorem armedIds_cancel (i : Nat) (st : Sched) :
    (cancelNotification i st).armedIds =
      st.armedIds.filter (fun k => ¬ k = i) := by
  unfold cancelNotification Sched.armedIds
  exact map_fst_filter_key i st.table

theorem not_mem_armedIds_cancel (i : Nat) (st : Sched) :
    i ∉ (cancelNotification i st).armedIds := by
  rw [armedIds_cancel]
  intro hmem
  have := List.of_mem_filter hmem
  simp at this

/-- `scheduleNotification` unfolded when the task has no due time. -/
theorem scheduleNotification_none (now : Int) (perm : Bool) (task : DayItem)
    (st : Sched) (htd : taskDueTime task = none) :
    scheduleNotification now perm task st = cancelNotification task.id st := by
  unfold scheduleNotification
  rw [htd]

/-- `scheduleNotification` unfolded when the task has a due time. -/
theorem scheduleNotification_some (now : Int) (perm : Bool) (task : DayItem)
    (st : Sched) (due : Int) (htd : taskDueTime task = some due) :
    scheduleNotification now perm task st =
      (if ¬ task.status = Status.pending then cancelNotification task.id st
       else if ¬ perm = true then cancelNotification task.id st
       else if due - now ≤ 0 then cancelNotification task.id st
       else
        { table := (cancelNotification task.id st).table ++
            [(task.id, (cancelNotification task.id st).nextHandle)]
          nextHandle := (cancelNotification task.id st).nextHandle + 1 }) := by
  unfold scheduleNotification
  rw [htd]

/-- When every guard passes, `scheduleNotification` arms exactly one timer
for the task, after erasing any previous one. -/
theorem armedIds_schedule_armed (now : Int) (perm : Bool) (task : DayItem)
    (st : Sched) (due : Int) (htd : taskDueTime task = some due)
    (hst : task.status = .pending) (hperm : perm = true)
    (hfut : ¬ due - now ≤ 0) :
    (scheduleNotification now perm task st).armedIds =
      st.armedIds.filter (fun k => ¬ k = task.id) ++ [task.id] := by
  rw [scheduleNotification_some now perm task st due htd]
  rw [if_neg (by simp [hst]), if_neg (by simp [hperm]), if_neg hfut]
  show ((cancelNotification task.id st).table ++
    [(task.id, (cancelNotification task.id st).nextHandle)]).map Prod.fst = _
  rw [List.map_append]
  rw [show (cancelNotification task.id st).table.map Prod.fst
      = (cancelNotification task.id st).armedIds from rfl]
  rw [armedIds_cancel]
  rfl

/-- C8 — no retroactive fire: when the task's due time is at or before `now`
(`delay <= 0`), `scheduleNotification` leaves the timer table without any
entry for the task id, whatever the permission, status or prior table. -/
theorem scheduleNotification_no_retroactive (now : Int) (perm : Bool)
    (task : DayItem) (st : Sched)
    (hpast : ∀ due, taskDueTime task = some due → due ≤ now) :
    task.id ∉ (scheduleNotification now perm task st).armedIds := by
  cases htd : taskDueTime task with
  | none =>
    rw [scheduleNotification_none now perm task st htd]
    exact not_mem_armedIds_cancel task.id st
  | some due =>
    have hle : due - now ≤ 0 := by
      have := hpast due htd
      omega
    rw [scheduleNotification_some now perm task st due htd]
    by_cases h1 : ¬ task.status = Status.pending
    · rw [if_pos h1]
      exact not_mem_armedIds_cancel task.id st
    · rw [if_neg h1]
      by_cases h2 : ¬ perm = true
      · rw [if_pos h2]
        exact not_mem_armedIds_cancel task.id st
      · rw [if_neg h2, if_pos hle]
        exact not_mem_armedIds_cancel task.id st

/-- C8 witness: an item due 07:00 on day 19844 (minute 28575780), queried at
08:00 (minute 28575840), is not armed even with permission granted and a
stale timer in the table — the stale entry is erased. -/
theorem scheduleNotification_no_retroactive_witness :
    taskDueTime exItemPending = some 28575780 ∧ (28575780 : Int) ≤ 28575840 ∧
      exItemPending.id ∉ (scheduleNotification 28575840 true exItemPending
        { table := [(7, 3)], nextHandle := 10 }).armedIds :=
  ⟨by decide, by decide,
    scheduleNotification_no_retroactive 28575840 true exItemPending
      { table := [(7, 3)], nextHandle := 10 }
      (fun due h => by
        rw [show taskDueTime exItemPending = some 28575780 from by decide,
          Option.some_inj] at h
        subst h
        decide)⟩

/-- The armed-id list produced by `scheduleNotification`, as a function of
the previous armed-id list alone. -/
def schedIdsFun (now : Int) (perm : Bool) (task : DayItem) (ks : List Nat) :
    List Nat :=
  match taskDueTime task with
  | none => ks.filter (fun k => ¬ k = task.id)
  | some due =>
    if ¬ task.status = Status.pending then ks.filter (fun k => ¬ k = task.id)
    else if ¬ perm = true then ks.filter (fun k => ¬ k = task.id)
    else if due - now ≤ 0 then ks.filter (fun k => ¬ k = task.id)
    else ks.filter (fun k => ¬ k = task.id) ++ [task.id]

theorem schedIdsFun_none (now : Int) (perm : Bool) (task : DayItem)
    (ks : List Nat) (htd : taskDueTime task = none) :
    schedIdsFun now perm task ks = ks.filter (fun k => ¬ k = task.id) := by
  unfold schedIdsFun
  rw [htd]

theorem schedIdsFun_some (now : Int) (perm : Bool) (task : DayItem)
    (ks : List Nat) (due : Int) (htd : taskDueTime task = some due) :
    schedIdsFun now perm task ks =
      (if ¬ task.status = Status.pending then ks.filter (fun k => ¬ k = task.id)
       else if ¬ perm = true then ks.filter (fun k => ¬ k = task.id)
       else if due - now ≤ 0 then ks.filter (fun k => ¬ k = task.id)
       else ks.filter (fun k => ¬ k = task.id) ++ [task.id]) := by
  unfold schedIdsFun
  rw [htd]

theorem armedIds_schedule_fun (now : Int) (perm : Bool) (task : DayItem)
    (st : Sched) :
    (scheduleNotification now perm task st).armedIds =
      schedIdsFun now perm task st.armedIds := by
  cases htd : taskDueTime task with
  | none =>
    rw [scheduleNotification_none now perm task st htd,
      schedIdsFun_none now perm task st.armedIds htd, armedIds_cancel]
  | some due =>
    rw [scheduleNotification_some now perm task st due htd,
      schedIdsFun_some now perm task st.armedIds due htd]
    by_cases h1 : ¬ task.status = Status.pending
    · rw [if_pos h1, if_pos h1, armedIds_cancel]
    · rw [if_neg h1, if_neg h1]
      by_cases h2 : ¬ perm = true
      · rw [if_pos h2, if_pos h2, armedIds_cancel]
      · rw [if_neg h2, if_neg h2]
        by_cases h3 : due - now ≤ 0
        · rw [if_pos h3, if_pos h3, armedIds_cancel]
        · rw [if_neg h3, if_neg h3]
          show ((cancelNotification task.id st).table ++
            [(task.id, (cancelNotification task.id st).nextHandle)]).map
              Prod.fst = _
          rw [List.map_append]
          rw [show (cancelNotification task.id st).table.map Prod.fst
              = (cancelNotification task.id st).armedIds from rfl]
          rw [armedIds_cancel]
          rfl

/-- The armed-id list produced by one resync step, as a function of the
previous armed-id list alone. -/
def resyncIdsFun (now : Int) (perm : Bool) (task : DayItem)
    (ks : List Nat) : List Nat :=
  match taskDueTime task with
  | none => ks
  | some due =>
    if task.status = Status.pending ∧ now < due then
      schedIdsFun now perm task ks
    else ks

theorem resyncIdsFun_none (now : Int) (perm : Bool) (task : DayItem)
    (ks : List Nat) (htd : taskDueTime task = none) :
    resyncIdsFun now perm task ks = ks := by
  unfold resyncIdsFun
  rw [htd]

theorem resyncIdsFun_some (now : Int) (perm : Bool) (task : DayItem)
    (ks : List Nat) (due : Int) (htd : taskDueTime task = some due) :
    resyncIdsFun now perm task ks =
      (if task.status = Status.pending ∧ now < due then
        schedIdsFun now perm task ks
      else ks) := by
  unfold resyncIdsFun
  rw [htd]

theorem resyncStep_none (now : Int) (perm : Bool) (st : Sched)
    (task : DayItem) (htd : taskDueTime task = none) :
    resyncStep now perm st task = st := by
  unfold resyncStep
  rw [htd]

theorem resyncStep_some (now : Int) (perm : Bool) (st : Sched)
    (task : DayItem) (due : Int) (htd : taskDueTime task = some due) :
    resyncStep now perm st task =
      (if task.status = Status.pending ∧ now < due then
        scheduleNotification now perm task st
      else st) := by
  unfold resyncStep
  rw [htd]

theorem armedIds_resyncStep (now : Int) (perm : Bool) (st : Sched)
    (task : DayItem) :
    (resyncStep now perm st task).armedIds =
      resyncIdsFun now perm task st.armedIds := by
  cases htd : taskDueTime task with
  | none => rw [resyncStep_none now perm st task htd,
      resyncIdsFun_none now perm task st.armedIds htd]
  | some due =>
    rw [resyncStep_some now perm st task due htd,
      resyncIdsFun_some now perm task st.armedIds due htd]
    by_cases hg : task.status = Status.pending ∧ now < due
    · rw [if_pos hg, if_pos hg]
      exact armedIds_schedule_fun now perm task st
    · rw [if_neg hg, if_neg hg]

theorem armedIds_foldl_resync (now : Int) (perm : Bool) :
    ∀ (tasks : List DayItem) (st : Sched),
      (tasks.foldl (resyncStep now perm) st).armedIds =
        tasks.foldl (fun ks t => resyncIdsFun now perm t ks) st.armedIds := by
  intro tasks
  induction tasks with
  | nil => intro st; rfl
  | cons t ts ih =>
    intro st
    rw [List.foldl_cons, List.foldl_cons, ih, armedIds_resyncStep]

/-- The armed ids after a full resync do not depend on the incoming scheduler
state at all: everything is cancelled first. -/
theorem rescheduleAll_armedIds (now : Int) (perm : Bool)
    (tasks : List DayItem) (enabled : Bool) (st : Sched) :
    (rescheduleAll now perm tasks enabled st).armedIds =
      if ¬ enabled = true then []
      else if ¬ perm = true then []
      else tasks.foldl (fun ks t => resyncIdsFun now perm t ks) [] := by
  have heq : rescheduleAll now perm tasks enabled st =
      (if ¬ enabled = true then cancelAllNotifications st
       else if ¬ perm = true then cancelAllNotifications st
       else tasks.foldl (resyncStep now perm) (cancelAllNotifications st)) :=
    rfl
  rw [heq]
  by_cases h1 : ¬ enabled = true
  · rw [if_pos h1, if_pos h1]
    rfl
  · rw [if_neg h1, if_neg h1]
    by_cases h2 : ¬ perm = true
    · rw [if_pos h2, if_pos h2]
      rfl
    · rw [if_neg h2, if_neg h2]
      rw [armedIds_foldl_resync]
      rfl

theorem schedIdsFun_nodup (now : Int) (perm : Bool) (task : DayItem)
    (ks : List Nat) (h : ks.Nodup) :
    (schedIdsFun now perm task ks).Nodup := by
  have hfilter : (ks.filter (fun k => ¬ k = task.id)).Nodup := h.filter _
  have happ : (ks.filter (fun k => ¬ k = task.id) ++ [task.id]).Nodup := by
    rw [List.nodup_append]
    refine ⟨hfilter, List.nodup_singleton task.id, ?_⟩
    intro a ha hb
    rw [List.mem_singleton] at hb
    subst hb
    have := List.of_mem_filter ha
    simp at this
  cases htd : taskDueTime task with
  | none => rw [schedIdsFun_none now perm task ks htd]; exact hfilter
  | some due =>
    rw [schedIdsFun_some now perm task ks due htd]
    by_cases h1 : ¬ task.status = Status.pending
    · rw [if_pos h1]; exact hfilter
    · rw [if_neg h1]
      by_cases h2 : ¬ perm = true
      · rw [if_pos h2]; exact hfilter
      · rw [if_neg h2]
        by_cases h3 : due - now ≤ 0
        · rw [if_pos h3]; exact hfilter
        · rw [if_neg h3]; exact happ

theorem resyncIdsFun_nodup (now : Int) (perm : Bool) (task : DayItem)
    (ks : List Nat) (h : ks.Nodup) :
    (resyncIdsFun now perm task ks).Nodup := by
  cases htd : taskDueTime task with
  | none => rw [resyncIdsFun_none now perm task ks htd]; exact h
  | some due =>
    rw [resyncIdsFun_some now perm task ks due htd]
    by_cases hg : task.status = Status.pending ∧ now < due
    · rw [if_pos hg]
      exact schedIdsFun_nodup now perm task ks h
    · rw [if_neg hg]
      exact h

theorem foldl_resyncIdsFun_nodup (now : Int) (perm : Bool) :
    ∀ (tasks : List DayItem) (ks : List Nat), ks.Nodup →
      (tasks.foldl (fun ks t => resyncIdsFun now perm t ks) ks).Nodup := by
  intro tasks
  induction tasks with
  | nil => intro ks h; exact h
  | cons t ts ih =>
    intro ks h
    rw [List.foldl_cons]
    exact ih _ (resyncIdsFun_nodup now perm t ks h)

/-- C7 — scheduler resync idempotence: for every task list and flag, calling
`rescheduleAll` twice in a row with unchanged input leaves exactly the same
armed timers — the same item ids in the same order, hence the same number —
as calling it once, and the resulting timer table never holds two entries
for the same item id. -/
theorem rescheduleAll_idempotent (now : Int) (perm : Bool)
    (tasks : List DayItem) (enabled : Bool) (st : Sched) :
    (rescheduleAll now perm tasks enabled
        (rescheduleAll now perm tasks enabled st)).armedIds =
      (rescheduleAll now perm tasks enabled st).armedIds ∧
      (rescheduleAll now perm tasks enabled st).armedIds.Nodup := by
  constructor
  · rw [rescheduleAll_armedIds, rescheduleAll_armedIds]
  · rw [rescheduleAll_armedIds]
    by_cases h1 : ¬ enabled = true
    · rw [if_pos h1]; exact List.nodup_nil
    · rw [if_neg h1]
      by_cases h2 : ¬ perm = true
      · rw [if_pos h2]; exact List.nodup_nil
      · rw [if_neg h2]
        exact foldl_resyncIdsFun_nodup now perm tasks [] List.nodup_nil

/-! ## C6 — streak -/

/-- A calendar day with at least one `LogEntry`. -/
def hasEntryOn (logs : List LogEntry) (d : Nat) : Bool :=
  logs.any (fun l => l.date = d)

/-- The spec's streak: the length of the run of consecutive calendar days,
counted backward from `d`, on each of which at least one entry was logged. -/
def runLen (logs : List LogEntry) : Nat → Nat
  | 0 => if hasEntryOn logs 0 then 1 else 0
  | d + 1 => if hasEntryOn logs (d + 1) then 1 + runLen logs d else 0

/-- The most recent day with an entry (0 for an empty history). -/
def maxLogDate (logs : List LogEntry) : Nat :=
  (logs.map LogEntry.date).foldr max 0

/-- The streak as the spec words it: the maximal run of consecutive days
with at least one `LogEntry`, counted backward from today, or from the most
recent day with an entry when today has none; 0 for an empty history. -/
def streak_spec (logs : List LogEntry) (today : Nat) : Nat :=
  if logs.isEmpty then 0
  else if hasEntryOn logs today then runLen logs today
  else runLen logs (maxLogDate logs)

theorem runLen_of_no_entry (logs : List LogEntry) (d : Nat)
    (h : hasEntryOn logs d = false) : runLen logs d = 0 := by
  cases d with
  | zero => unfold runLen; rw [h]; rfl
  | succ n => unfold runLen; rw [h]; rfl

theorem mem_completedDatesDesc (logs : List LogEntry) (x : Nat) :
    x ∈ completedDatesDesc logs ↔ hasEntryOn logs x = true := by
  unfold completedDatesDesc hasEntryOn
  rw [(List.perm_insertionSort _ _).mem_iff, List.mem_dedup, List.mem_map]
  simp [List.any_eq_true]

theorem nodup_completedDatesDesc (logs : List LogEntry) :
    (completedDatesDesc logs).Nodup :=
  ((List.perm_insertionSort _ _).nodup_iff).mpr (List.nodup_dedup _)

theorem sorted_completedDatesDesc (logs : List LogEntry) :
    (completedDatesDesc logs).Sorted (· > ·) := by
  have hsorted : (completedDatesDesc logs).Sorted (· ≥ ·) :=
    List.sorted_insertionSort _ _
  have hnodup := nodup_completedDatesDesc logs
  exact (hsorted.and hnodup).imp
    (fun h => lt_of_le_of_ne h.1 (Ne.symm h.2))

theorem le_foldr_max (l : List Nat) : ∀ x ∈ l, x ≤ l.foldr max 0 := by
  induction l with
  | nil => intro x hx; exact absurd hx (List.not_mem_nil x)
  | cons a rest ih =>
    intro x hx
    rw [List.foldr_cons]
    rcases List.mem_cons.mp hx with h | h
    · subst h; exact le_max_left _ _
    · exact le_trans (ih x h) (le_max_right _ _)

theorem foldr_max_mem (l : List Nat) (h : ¬ l = []) : l.foldr max 0 ∈ l := by
  induction l with
  | nil => exact absurd rfl h
  | cons a rest ih =>
    rw [List.foldr_cons]
    by_cases hr : rest = []
    · subst hr
      simp
    · rcases max_choice a (rest.foldr max 0) with hm | hm
      · rw [hm]; exact List.mem_cons_self a rest
      · rw [hm]; exact List.mem_cons_of_mem a (ih hr)

theorem runLen_zero (logs : List LogEntry) :
    runLen logs 0 = if hasEntryOn logs 0 then 1 else 0 := rfl

theorem runLen_succ (logs : List LogEntry) (n : Nat) :
    runLen logs (n + 1) =
      if hasEntryOn logs (n + 1) then 1 + runLen logs n else 0 := rfl

theorem streakWalk_nil (cur : Nat) : streakWalk cur [] = 0 := rfl

theorem streakWalk_cons (cur d : Nat) (ds : List Nat) :
    streakWalk cur (d :: ds) =
      if (cur : Int) - d = 0 ∨ (cur : Int) - d = 1 then 1 + streakWalk d ds
      else 0 := rfl

/-- Core equivalence: on a strictly descending list of dates that coincides
with the entry-days at or below its head, the backward day-by-day run count
equals one plus the gap-walk over the tail. -/
theorem runLen_eq_walk (logs : List LogEntry) :
    ∀ (D : List Nat) (a : Nat),
      (a :: D).Sorted (· > ·) →
      (∀ x, x ≤ a → (hasEntryOn logs x = true ↔ x ∈ a :: D)) →
      runLen logs a = 1 + streakWalk a D := by
  intro D
  induction D with
  | nil =>
    intro a _ hmem
    have ha : hasEntryOn logs a = true :=
      (hmem a le_rfl).mpr (List.mem_cons_self a [])
    rw [streakWalk_nil]
    cases a with
    | zero => rw [runLen_zero, if_pos ha]
    | succ n =>
      have hn : hasEntryOn logs n = false := by
        by_contra hcon
        rw [Bool.not_eq_false] at hcon
        have := (hmem n (by omega)).mp hcon
        rcases List.mem_cons.mp this with h | h
        · omega
        · exact absurd h (List.not_mem_nil n)
      rw [runLen_succ, if_pos ha, runLen_of_no_entry logs n hn]
  | cons b D' ih =>
    intro a hsorted hmem
    have hab : a > b := (List.sorted_cons.mp hsorted).1 b (List.mem_cons_self b D')
    have hsorted' : (b :: D').Sorted (· > ·) := (List.sorted_cons.mp hsorted).2
    have ha : hasEntryOn logs a = true :=
      (hmem a le_rfl).mpr (List.mem_cons_self a _)
    obtain ⟨n, rfl⟩ : ∃ n, a = n + 1 := ⟨a - 1, by omega⟩
    rw [runLen_succ, if_pos ha, streakWalk_cons]
    by_cases hb : b = n
    · subst hb
      rw [if_pos (Or.inr (by push_cast; ring))]
      have hmem' : ∀ x, x ≤ b → (hasEntryOn logs x = true ↔ x ∈ b :: D') := by
        intro x hx
        rw [hmem x (by omega)]
        constructor
        · intro hmemx
          rcases List.mem_cons.mp hmemx with h | h
          · exact absurd h (by omega)
          · exact h
        · intro hx'
          exact List.mem_cons_of_mem _ hx'
      rw [ih b hsorted' hmem']
    · have hbn : b < n := by omega
      have hcond : ¬(((n + 1 : Nat) : Int) - b = 0 ∨
          ((n + 1 : Nat) : Int) - b = 1) := by
        push_cast
        omega
      rw [if_neg hcond]
      have hnone : hasEntryOn logs n = false := by
        by_contra hcon
        rw [Bool.not_eq_false] at hcon
        have hmemn := (hmem n (by omega)).mp hcon
        rcases List.mem_cons.mp hmemn with h | h
        · omega
        · rcases List.mem_cons.mp h with h2 | h2
          · omega
          · have := (List.sorted_cons.mp hsorted').1 n h2
            omega
      rw [runLen_of_no_entry logs n hnone]

/-- C6 — streak: for every log history whose entries lie at or before
`today`, the streak computed by the analytics code equals the spec's streak —
the length of the maximal run of consecutive calendar days with at least one
`LogEntry`, counted backward from today, or from the most recent day with an
entry when today has none (0 for no entries at all). -/
theorem streak_eq_spec (logs : List LogEntry) (today : Nat)
    (hle : ∀ l ∈ logs, l.date ≤ today) :
    streak logs today = streak_spec logs today := by
  cases hD : completedDatesDesc logs with
  | nil =>
    have hlogs : logs = [] := by
      by_contra hne
      obtain ⟨l, hl⟩ := List.exists_mem_of_ne_nil logs hne
      have hmem : l.date ∈ completedDatesDesc logs := by
        rw [mem_completedDatesDesc]
        unfold hasEntryOn
        rw [List.any_eq_true]
        exact ⟨l, hl, by simp⟩
      rw [hD] at hmem
      exact absurd hmem (List.not_mem_nil _)
    subst hlogs
    rfl
  | cons first rest =>
    have hfirstD : first ∈ completedDatesDesc logs := by
      rw [hD]
      exact List.mem_cons_self _ _
    have hfirst : hasEntryOn logs first = true :=
      (mem_completedDatesDesc logs first).mp hfirstD
    have hlogs_ne : ¬ logs = [] := by
      intro h
      subst h
      simp [hasEntryOn] at hfirst
    have hD_le_today : ∀ x ∈ completedDatesDesc logs, x ≤ today := by
      intro x hx
      have hx' := (mem_completedDatesDesc logs x).mp hx
      unfold hasEntryOn at hx'
      rw [List.any_eq_true] at hx'
      obtain ⟨l, hl, hlx⟩ := hx'
      have := hle l hl
      simp at hlx
      omega
    have hsorted := sorted_completedDatesDesc logs
    rw [hD] at hsorted
    have hhead : ∀ x ∈ rest, first > x := (List.sorted_cons.mp hsorted).1
    have hmem : ∀ x, (hasEntryOn logs x = true ↔ x ∈ first :: rest) := by
      intro x
      rw [← hD]
      exact (mem_completedDatesDesc logs x).symm
    have hstreak : streak logs today =
        streakWalk (if first = today then today else first + 1)
          (first :: rest) := by
      unfold streak
      rw [hD]
    rw [hstreak]
    have hempty : logs.isEmpty = false := by
      cases logs with
      | nil => exact absurd rfl hlogs_ne
      | cons a l => rfl
    by_cases htoday : hasEntryOn logs today = true
    · have hspec : streak_spec logs today = runLen logs today := by
        unfold streak_spec
        rw [hempty, htoday]
        rfl
      rw [hspec]
      have htodayD : today ∈ first :: rest := (hmem today).mp htoday
      have hft : first = today := by
        rcases List.mem_cons.mp htodayD with h | h
        · omega
        · have h1 := hhead today h
          have h2 := hD_le_today first hfirstD
          omega
      have hor : (today : Int) - (first : Int) = 0 ∨
          (today : Int) - (first : Int) = 1 := Or.inl (by rw [hft]; omega)
      rw [if_pos hft, streakWalk_cons, if_pos hor]
      rw [← hft]
      rw [runLen_eq_walk logs rest first hsorted (fun x _ => hmem x)]
    · have hspec : streak_spec logs today = runLen logs (maxLogDate logs) := by
        unfold streak_spec
        rw [hempty]
        have : hasEntryOn logs today = false := by
          cases h : hasEntryOn logs today
          · rfl
          · exact absurd h htoday
        rw [this]
        rfl
      rw [hspec]
      have hft : ¬ first = today := by
        intro h
        rw [h] at hfirst
        exact htoday hfirst
      have hor : ((first + 1 : Nat) : Int) - (first : Int) = 0 ∨
          ((first + 1 : Nat) : Int) - (first : Int) = 1 :=
        Or.inr (by push_cast; omega)
      rw [if_neg hft, streakWalk_cons, if_pos hor]
      have hmax : maxLogDate logs = first := by
        have hmapne : ¬ (logs.map LogEntry.date) = [] := by
          simp [hlogs_ne]
        have hmem_max : maxLogDate logs ∈ logs.map LogEntry.date :=
          foldr_max_mem _ hmapne
        have hentry_max : hasEntryOn logs (maxLogDate logs) = true := by
          unfold hasEntryOn
          rw [List.any_eq_true]
          rcases List.mem_map.mp hmem_max with ⟨l, hl, hlx⟩
          exact ⟨l, hl, by simp [hlx]⟩
        have hmaxD : maxLogDate logs ∈ first :: rest := (hmem _).mp hentry_max
        have hfle : first ≤ maxLogDate logs := by
          unfold hasEntryOn at hfirst
          rw [List.any_eq_true] at hfirst
          obtain ⟨l, hl, hlf⟩ := hfirst
          simp at hlf
          have := le_foldr_max (logs.map LogEntry.date) l.date
            (List.mem_map_of_mem _ hl)
          unfold maxLogDate
          omega
        rcases List.mem_cons.mp hmaxD with h | h
        · omega
        · have := hhead _ h
          omega
      rw [hmax]
      rw [runLen_eq_walk logs rest first hsorted (fun x _ => hmem x)]

/-- Fixture: log entries on 2024-05-01, 05-02 and 05-03 (days 19844–19846)
and none on 05-04 (day 19847). -/
def exStreakLogs : List LogEntry :=
  [{ exLog 1 with date := 19844 }, { exLog 2 with date := 19845 },
   { exLog 3 with date := 19846 }]

/-- C6 witness: on the concrete 05-01..05-03 history queried as of 05-04 the
hypothesis holds, the code streak agrees with the spec streak, and both
equal 3. -/
theorem streak_eq_spec_witness :
    (∀ l ∈ exStreakLogs, l.date ≤ 19847) ∧
      streak exStreakLogs 19847 = streak_spec exStreakLogs 19847 ∧
      streak exStreakLogs 19847 = 3 :=
  ⟨by decide, streak_eq_spec exStreakLogs 19847 (by decide), by decide⟩
